import Mathlib

/-!
Verification of the colorsplit page-classification and splitting pipeline.

The source is a single Svelte page component.  Its two algorithmic parts are
embedded here as pure Lean functions:

* `detectColor` — the luminance-adaptive color classifier.  JavaScript numbers
  are modelled by `ℚ`; an `ImageData.data` byte array is a `List ℕ` whose
  length is four times the pixel count (RGBA, 8 bits per channel).  Reads use
  `List.getD _ _ 0`; for well-formed buffers (length a multiple of 4) every
  read performed by the sampling loop is in range.
* `processPDFs` — the per-file / per-page orchestration loop.  External
  collaborators (file reading, PDF decode, rasterization, page copy) are
  modelled by an input description saying, for each file and page, how the
  corresponding external call behaves.  Accumulated output documents are lists
  of `Page` tokens, and every assignment to the `progress` string is recorded,
  in order, in a `trace`.  The save/download steps themselves are modelled as
  pure (their failure modes come from the external encoder), and the guard
  that returns early on an empty file list is reflected by stating run-level
  theorems for a run that actually starts.
-/

/- `Rat.add`, `Rat.mul`, `Rat.sub` and `Rat.inv` are `@[irreducible]` in
Batteries, which blocks `decide` on concrete rational computations; making
them semireducible again lets concrete runs of the classifier evaluate. -/
attribute [local semireducible] Rat.add Rat.mul Rat.sub Rat.inv

namespace ColorSplit

/-- One sampled RGBA pixel (8-bit channels, modelled as `ℕ`). -/
structure Px where
  r : ℕ
  g : ℕ
  b : ℕ
  a : ℕ
deriving DecidableEq, Repr

/-- Counters accumulated by the sampling loop of `detectColor`. -/
structure DetectState where
  colorPixels : ℕ
  sampledPixels : ℕ
  brightPixels : ℕ
  darkPixels : ℕ
deriving DecidableEq, Repr

/-- The loop `for (i = 0; i < data.length; i += 40)` visits byte offsets
`40*k` for `k < ⌈data.length / 40⌉` and reads the four bytes at that offset:
every 10th RGBA pixel. -/
def samples (data : List ℕ) : List Px :=
  (List.range ((data.length + 39) / 40)).map fun k =>
    ⟨data.getD (40 * k) 0, data.getD (40 * k + 1) 0,
     data.getD (40 * k + 2) 0, data.getD (40 * k + 3) 0⟩

/-- `luminance = 0.299 * r + 0.587 * g + 0.114 * b`. -/
def pxLum (p : Px) : ℚ :=
  (299 * p.r + 587 * p.g + 114 * p.b : ℕ) / 1000

/-- `saturation = max === 0 ? 0 : (max - min) / max`. -/
def pxSat (p : Px) : ℚ :=
  let mx := max p.r (max p.g p.b)
  let mn := min p.r (min p.g p.b)
  if mx = 0 then 0 else ((mx : ℚ) - (mn : ℚ)) / (mx : ℚ)

/-- `chroma = max - min`. -/
def pxChroma (p : Px) : ℚ :=
  let mx := max p.r (max p.g p.b)
  let mn := min p.r (min p.g p.b)
  (mx : ℚ) - (mn : ℚ)

/-- The three luminance-conditioned per-pixel color rules of `detectColor`. -/
def isColorPx (t : ℚ) (p : Px) : Bool :=
  if pxLum p < 55 then
    decide (pxSat p * 100 > t * (7/10) ∨ pxChroma p > 8)
  else if pxLum p > 200 then
    decide (pxSat p * 100 > t * (8/10) ∨ pxChroma p > 10)
  else
    decide (pxSat p * 100 > t ∨ (pxChroma p > 12 ∧ pxSat p > 1/10))

/-- One iteration of the sampling loop: skip near-transparent pixels
(`a < 128`), else count the sample, track the brightness regime, and count
the pixel as colored when the regime rule fires. -/
def pixelStep (t : ℚ) (s : DetectState) (p : Px) : DetectState :=
  if p.a < 128 then s
  else
    let s := { s with sampledPixels := s.sampledPixels + 1 }
    let s :=
      if pxLum p > 200 then { s with brightPixels := s.brightPixels + 1 }
      else if pxLum p < 55 then { s with darkPixels := s.darkPixels + 1 }
      else s
    if isColorPx t p then { s with colorPixels := s.colorPixels + 1 } else s

/-- The classifier `detectColor(imageData, threshold)`: `true` means Color,
`false` means BlackAndWhite. -/
def detectColor (data : List ℕ) (threshold : ℚ) : Bool :=
  let s := (samples data).foldl (pixelStep threshold) ⟨0, 0, 0, 0⟩
  if s.sampledPixels = 0 then false
  else
    let colorPercentage := ((s.colorPixels : ℚ) / (s.sampledPixels : ℚ)) * 100
    let brightRatio := (s.brightPixels : ℚ) / (s.sampledPixels : ℚ)
    let darkRatio := (s.darkPixels : ℚ) / (s.sampledPixels : ℚ)
    let finalThreshold : ℚ := if brightRatio > 3/10 ∨ darkRatio > 3/10 then 5/1000 else 1/100
    decide (colorPercentage > finalThreshold)

/-- Every pixel visited by the sampling loop is below the transparency
cutoff (`a < 128`), so the counted sample population is empty. -/
def allSampledTransparent (data : List ℕ) : Bool :=
  (samples data).all fun p => decide (p.a < 128)

/-- A buffer of `n` identical RGBA pixels. -/
def uniformBuffer (n r g b a : ℕ) : List ℕ :=
  (List.replicate n [r, g, b, a]).flatten

/-! ## The splitting pipeline `processPDFs` -/

/-- A page token held by an output accumulator: either the page at index
`page` of the input file at index `file` (copied by `copyPages`/`addPage`),
or a blank separator page (`addPage()` with no argument). -/
inductive Page where
  | src (file : ℕ) (page : ℕ)
  | blank
deriving DecidableEq, Repr

/-- `Page.src` tokens are copied source pages; `Page.blank` separators are
not. -/
def Page.isSrc : Page → Bool
  | Page.src _ _ => true
  | Page.blank => false

/-- One assignment to the `progress` string, with the data interpolated into
the corresponding localized message. -/
inductive Msg where
  | starting
  | processingFile (name : String) (current total : ℕ)
  | errorReadingFile (name : String)
  | errorInvalidPdf (name : String)
  | errorProcessingFile (name : String)
  | processingPage (name : String) (current total : ℕ)
  | errorCopyingPage (page : ℕ) (name : String)
  | generating
  | errorNoPages
  | complete
deriving DecidableEq, Repr

/-- How the external collaborators behave on one page of an opened file:
`render = none` models the rasterize/`getImageData` block throwing,
`render = some img` models it producing the pixel buffer `img`;
`copyOk = false` models `copyPages`/`addPage` throwing for this page. -/
structure PageSpec where
  render : Option (List ℕ)
  copyOk : Bool
deriving DecidableEq, Repr

/-- How the three file-level external calls behave on one input file:
`readError` = `file.arrayBuffer()` throws, `loadError` = `PDFDocument.load`
throws, `renderOpenError` = `pdfjsLib.getDocument` throws, and `ok pages`
= all three succeed on a document with the given pages. -/
inductive FileOutcome where
  | readError
  | loadError
  | renderOpenError
  | ok (pages : List PageSpec)
deriving DecidableEq, Repr

/-- One input file: its name (used in progress messages) and the behavior of
the external calls on it. -/
structure InputFile where
  name : String
  outcome : FileOutcome
deriving DecidableEq, Repr

/-- The mutable component state touched by `processPDFs`: the two counters of
`results`, the page lists of `colorPDF` and `bwPDF`, and the ordered record
of every assignment to `progress`. -/
structure RunState where
  colorPages : ℕ
  bwPages : ℕ
  colorDoc : List Page
  bwDoc : List Page
  trace : List Msg
deriving DecidableEq, Repr

/-- Record one assignment to `progress`. -/
def emit (s : RunState) (msg : Msg) : RunState :=
  { s with trace := s.trace ++ [msg] }

/-- The classification computed for one page: `isColorPage` starts `false`,
the try-block sets it from `detectColor` on the rendered buffer, and the
catch-block leaves it `false` when rendering fails. -/
def pageIsColor (t : ℚ) (p : PageSpec) : Bool :=
  match p.render with
  | some img => detectColor img t
  | none => false

/-- The body of the per-page loop: report progress, classify (defaulting to
B&W when rasterization fails), then copy the page into the accumulator
matching the classification and bump the matching counter — or, when the
copy fails, report a page-level error and touch neither accumulator nor
counter. -/
def processPage (t : ℚ) (name : String) (total : ℕ) (fi pi : ℕ) (p : PageSpec)
    (s : RunState) : RunState :=
  let s := emit s (Msg.processingPage name (pi + 1) total)
  let isColorPage := pageIsColor t p
  if p.copyOk then
    if isColorPage then
      { s with colorDoc := s.colorDoc ++ [Page.src fi pi],
               colorPages := s.colorPages + 1 }
    else
      { s with bwDoc := s.bwDoc ++ [Page.src fi pi],
               bwPages := s.bwPages + 1 }
  else
    emit s (Msg.errorCopyingPage (pi + 1) name)

/-- The per-page loop `for (pageIndex = 0; pageIndex < pageCount; ...)`,
started at page index `pi`. -/
def processPages (t : ℚ) (name : String) (total : ℕ) (fi : ℕ) :
    ℕ → List PageSpec → RunState → RunState
  | _, [], s => s
  | pi, p :: ps, s =>
      processPages t name total fi (pi + 1) ps (processPage t name total fi pi p s)

/-- The body of the per-file loop: report progress; on any of the three
file-level failures report the corresponding error and skip the file;
otherwise optionally add a blank page to both accumulators (when separators
are enabled and `fileIndex > 0`) and run the per-page loop. -/
def processFile (t : ℚ) (ib : Bool) (total : ℕ) (fi : ℕ) (f : InputFile)
    (s : RunState) : RunState :=
  let s := emit s (Msg.processingFile f.name (fi + 1) total)
  match f.outcome with
  | FileOutcome.readError => emit s (Msg.errorReadingFile f.name)
  | FileOutcome.loadError => emit s (Msg.errorInvalidPdf f.name)
  | FileOutcome.renderOpenError => emit s (Msg.errorProcessingFile f.name)
  | FileOutcome.ok pages =>
      let s :=
        if ib ∧ 0 < fi then
          { s with colorDoc := s.colorDoc ++ [Page.blank],
                   bwDoc := s.bwDoc ++ [Page.blank] }
        else s
      processPages t f.name pages.length fi 0 pages s

/-- The per-file loop, started at file index `fi`. -/
def processFiles (t : ℚ) (ib : Bool) (total : ℕ) :
    ℕ → List InputFile → RunState → RunState
  | _, [], s => s
  | fi, f :: fs, s => processFiles t ib total (fi + 1) fs (processFile t ib total fi f s)

/-- The state at the start of a run: counters reset to zero, both output
documents freshly created, and `progress` set to the starting message. -/
def initialState : RunState :=
  { colorPages := 0, bwPages := 0, colorDoc := [], bwDoc := [], trace := [Msg.starting] }

/-- A whole run of `processPDFs` over a (nonempty — the function returns
before doing anything on an empty selection) list of input files: the
per-file loop, then the generating message, then either the distinguished
no-pages message or the ordinary completion message. -/
def processPDFs (files : List InputFile) (t : ℚ) (ib : Bool) : RunState :=
  let s := processFiles t ib files.length 0 files initialState
  let s := emit s Msg.generating
  if s.colorPages = 0 ∧ s.bwPages = 0 then emit s Msg.errorNoPages
  else emit s Msg.complete

/-- `colorPDF.save()` runs and its bytes are downloaded only when
`results.colorPages > 0`; otherwise no color output stream exists. -/
def colorOutput (s : RunState) : Option (List Page) :=
  if 0 < s.colorPages then some s.colorDoc else none

/-- `bwPDF.save()` runs and its bytes are downloaded only when
`results.bwPages > 0`; otherwise no B&W output stream exists. -/
def bwOutput (s : RunState) : Option (List Page) :=
  if 0 < s.bwPages then some s.bwDoc else none

/-- The value left in `progress` when the run finishes: the last assignment
made to it. -/
def finalProgress (s : RunState) : Option Msg :=
  s.trace.getLast?

/-- The file-level and page-level error messages: one surfaced diagnostic per
failed file or failed page.  The run-outcome message `errorNoPages` and the
progress messages are not per-failure diagnostics. -/
def Msg.isError : Msg → Bool
  | Msg.errorReadingFile _ => true
  | Msg.errorInvalidPdf _ => true
  | Msg.errorProcessingFile _ => true
  | Msg.errorCopyingPage _ _ => true
  | _ => false

/-- The ordered list of surfaced per-failure diagnostics of a run. -/
def diagnostics (s : RunState) : List Msg :=
  s.trace.filter Msg.isError

/-! ## Closed forms for the loops

The following functions describe, file by file and page by page, exactly what
the loops of `processPDFs` append to each accumulator and to the trace; the
`processPages_eq` / `processFiles_eq` lemmas below prove the loops equal to
these closed forms. -/

/-- The source pages a run of the page loop (file `fi`, starting page `pi`)
appends to the color accumulator. -/
def colorSrcPages (t : ℚ) (fi : ℕ) : ℕ → List PageSpec → List Page
  | _, [] => []
  | pi, p :: ps =>
      (if p.copyOk ∧ pageIsColor t p then [Page.src fi pi] else []) ++
        colorSrcPages t fi (pi + 1) ps

/-- The source pages a run of the page loop appends to the B&W accumulator. -/
def bwSrcPages (t : ℚ) (fi : ℕ) : ℕ → List PageSpec → List Page
  | _, [] => []
  | pi, p :: ps =>
      (if p.copyOk ∧ ¬(pageIsColor t p = true) then [Page.src fi pi] else []) ++
        bwSrcPages t fi (pi + 1) ps

/-- The progress messages a run of the page loop emits. -/
def pagesTrace (name : String) (total : ℕ) : ℕ → List PageSpec → List Msg
  | _, [] => []
  | pi, p :: ps =>
      Msg.processingPage name (pi + 1) total ::
        ((if p.copyOk then [] else [Msg.errorCopyingPage (pi + 1) name]) ++
          pagesTrace name total (pi + 1) ps)

/-- What one file contributes to the color accumulator. -/
def fileColorDoc (t : ℚ) (ib : Bool) (fi : ℕ) (f : InputFile) : List Page :=
  match f.outcome with
  | FileOutcome.ok pages =>
      (if ib ∧ 0 < fi then [Page.blank] else []) ++ colorSrcPages t fi 0 pages
  | _ => []

/-- What one file contributes to the B&W accumulator. -/
def fileBwDoc (t : ℚ) (ib : Bool) (fi : ℕ) (f : InputFile) : List Page :=
  match f.outcome with
  | FileOutcome.ok pages =>
      (if ib ∧ 0 < fi then [Page.blank] else []) ++ bwSrcPages t fi 0 pages
  | _ => []

/-- The progress messages one file contributes to the trace. -/
def fileTrace (total fi : ℕ) (f : InputFile) : List Msg :=
  Msg.processingFile f.name (fi + 1) total ::
    match f.outcome with
    | FileOutcome.readError => [Msg.errorReadingFile f.name]
    | FileOutcome.loadError => [Msg.errorInvalidPdf f.name]
    | FileOutcome.renderOpenError => [Msg.errorProcessingFile f.name]
    | FileOutcome.ok pages => pagesTrace f.name pages.length 0 pages

/-- What the whole file loop (starting at file index `fi`) appends to the
color accumulator. -/
def runColorDoc (t : ℚ) (ib : Bool) : ℕ → List InputFile → List Page
  | _, [] => []
  | fi, f :: fs => fileColorDoc t ib fi f ++ runColorDoc t ib (fi + 1) fs

/-- What the whole file loop appends to the B&W accumulator. -/
def runBwDoc (t : ℚ) (ib : Bool) : ℕ → List InputFile → List Page
  | _, [] => []
  | fi, f :: fs => fileBwDoc t ib fi f ++ runBwDoc t ib (fi + 1) fs

/-- The progress messages the whole file loop emits. -/
def runTrace (total : ℕ) : ℕ → List InputFile → List Msg
  | _, [] => []
  | fi, f :: fs => fileTrace total fi f ++ runTrace total (fi + 1) fs

/-- The page-level diagnostics of an opened file: exactly one entry, carrying
the filename and the 1-based page index, for each page whose copy fails, in
page order.  Pages that copy fine — including pages whose rasterization
failed — contribute nothing. -/
def pageDiags (name : String) : ℕ → List PageSpec → List Msg
  | _, [] => []
  | pi, p :: ps =>
      (if p.copyOk then [] else [Msg.errorCopyingPage (pi + 1) name]) ++
        pageDiags name (pi + 1) ps

/-- The diagnostics one file should account for: exactly one entry, carrying
the filename and the error kind, for a failed file, or one entry per failed
page of an opened file. -/
def fileDiags (f : InputFile) : List Msg :=
  match f.outcome with
  | FileOutcome.readError => [Msg.errorReadingFile f.name]
  | FileOutcome.loadError => [Msg.errorInvalidPdf f.name]
  | FileOutcome.renderOpenError => [Msg.errorProcessingFile f.name]
  | FileOutcome.ok pages => pageDiags f.name 0 pages

/-- The expected ordered diagnostic list of a whole run: the per-file
diagnostic lists in input order. -/
def runDiags (files : List InputFile) : List Msg :=
  (files.map fileDiags).flatten

/-! ## Unrolling lemmas -/

theorem processPages_eq (t : ℚ) (name : String) (total fi : ℕ) :
    ∀ (ps : List PageSpec) (pi : ℕ) (s : RunState),
    processPages t name total fi pi ps s =
      { colorPages := s.colorPages + (colorSrcPages t fi pi ps).length,
        bwPages := s.bwPages + (bwSrcPages t fi pi ps).length,
        colorDoc := s.colorDoc ++ colorSrcPages t fi pi ps,
        bwDoc := s.bwDoc ++ bwSrcPages t fi pi ps,
        trace := s.trace ++ pagesTrace name total pi ps } := by
  intro ps
  induction ps with
  | nil => intro pi s; simp [processPages, colorSrcPages, bwSrcPages, pagesTrace]
  | cons p ps ih =>
      intro pi s
      rw [processPages, ih]
      by_cases hc : p.copyOk
      · by_cases hcol : pageIsColor t p = true
        · simp [processPage, emit, hc, hcol, colorSrcPages, bwSrcPages, pagesTrace]
          omega
        · simp [processPage, emit, hc, hcol, colorSrcPages, bwSrcPages, pagesTrace]
          omega
      · simp [processPage, emit, hc, colorSrcPages, bwSrcPages, pagesTrace]

theorem mem_colorSrcPages (t : ℚ) (fi : ℕ) :
    ∀ (ps : List PageSpec) (pi : ℕ) (q : Page), q ∈ colorSrcPages t fi pi ps →
      ∃ j, pi ≤ j ∧ q = Page.src fi j := by
  intro ps
  induction ps with
  | nil => intro pi q h; simp [colorSrcPages] at h
  | cons p ps ih =>
      intro pi q h
      rw [colorSrcPages, List.mem_append] at h
      rcases h with h | h
      · refine ⟨pi, le_refl pi, ?_⟩
        split at h
        · simpa using h
        · simp at h
      · obtain ⟨j, hj, hq⟩ := ih (pi + 1) q h
        exact ⟨j, by omega, hq⟩

theorem mem_bwSrcPages (t : ℚ) (fi : ℕ) :
    ∀ (ps : List PageSpec) (pi : ℕ) (q : Page), q ∈ bwSrcPages t fi pi ps →
      ∃ j, pi ≤ j ∧ q = Page.src fi j := by
  intro ps
  induction ps with
  | nil => intro pi q h; simp [bwSrcPages] at h
  | cons p ps ih =>
      intro pi q h
      rw [bwSrcPages, List.mem_append] at h
      rcases h with h | h
      · refine ⟨pi, le_refl pi, ?_⟩
        split at h
        · simpa using h
        · simp at h
      · obtain ⟨j, hj, hq⟩ := ih (pi + 1) q h
        exact ⟨j, by omega, hq⟩

theorem countP_colorSrcPages (t : ℚ) (fi : ℕ) (ps : List PageSpec) (pi : ℕ) :
    (colorSrcPages t fi pi ps).countP Page.isSrc = (colorSrcPages t fi pi ps).length := by
  rw [List.countP_eq_length]
  intro q hq
  obtain ⟨j, _, hq⟩ := mem_colorSrcPages t fi ps pi q hq
  simp [hq, Page.isSrc]

theorem countP_bwSrcPages (t : ℚ) (fi : ℕ) (ps : List PageSpec) (pi : ℕ) :
    (bwSrcPages t fi pi ps).countP Page.isSrc = (bwSrcPages t fi pi ps).length := by
  rw [List.countP_eq_length]
  intro q hq
  obtain ⟨j, _, hq⟩ := mem_bwSrcPages t fi ps pi q hq
  simp [hq, Page.isSrc]

theorem processFile_eq (t : ℚ) (ib : Bool) (total fi : ℕ) (f : InputFile) (s : RunState) :
    processFile t ib total fi f s =
      { colorPages := s.colorPages + (fileColorDoc t ib fi f).countP Page.isSrc,
        bwPages := s.bwPages + (fileBwDoc t ib fi f).countP Page.isSrc,
        colorDoc := s.colorDoc ++ fileColorDoc t ib fi f,
        bwDoc := s.bwDoc ++ fileBwDoc t ib fi f,
        trace := s.trace ++ fileTrace total fi f } := by
  match f with
  | ⟨name, FileOutcome.readError⟩ =>
      simp [processFile, emit, fileColorDoc, fileBwDoc, fileTrace]
  | ⟨name, FileOutcome.loadError⟩ =>
      simp [processFile, emit, fileColorDoc, fileBwDoc, fileTrace]
  | ⟨name, FileOutcome.renderOpenError⟩ =>
      simp [processFile, emit, fileColorDoc, fileBwDoc, fileTrace]
  | ⟨name, FileOutcome.ok pages⟩ =>
      rw [processFile]
      by_cases hsep : (ib : Prop) ∧ 0 < fi
      · simp only [hsep, if_true]
        rw [processPages_eq]
        simp [emit, fileColorDoc, fileBwDoc, fileTrace, hsep,
              countP_colorSrcPages, countP_bwSrcPages, List.countP_cons, Page.isSrc,
              List.countP_append]
      · simp only [hsep, if_false]
        rw [processPages_eq]
        simp [emit, fileColorDoc, fileBwDoc, fileTrace, hsep,
              countP_colorSrcPages, countP_bwSrcPages]

theorem processFiles_eq (t : ℚ) (ib : Bool) (total : ℕ) :
    ∀ (fs : List InputFile) (fi : ℕ) (s : RunState),
    processFiles t ib total fi fs s =
      { colorPages := s.colorPages + (runColorDoc t ib fi fs).countP Page.isSrc,
        bwPages := s.bwPages + (runBwDoc t ib fi fs).countP Page.isSrc,
        colorDoc := s.colorDoc ++ runColorDoc t ib fi fs,
        bwDoc := s.bwDoc ++ runBwDoc t ib fi fs,
        trace := s.trace ++ runTrace total fi fs } := by
  intro fs
  induction fs with
  | nil => intro fi s; simp [processFiles, runColorDoc, runBwDoc, runTrace]
  | cons f fs ih =>
      intro fi s
      rw [processFiles, ih, processFile_eq]
      simp [runColorDoc, runBwDoc, runTrace, List.countP_append]
      omega

theorem processPDFs_colorDoc (files : List InputFile) (t : ℚ) (ib : Bool) :
    (processPDFs files t ib).colorDoc = runColorDoc t ib 0 files := by
  rw [processPDFs, processFiles_eq]
  split <;> simp [emit, initialState]

theorem processPDFs_bwDoc (files : List InputFile) (t : ℚ) (ib : Bool) :
    (processPDFs files t ib).bwDoc = runBwDoc t ib 0 files := by
  rw [processPDFs, processFiles_eq]
  split <;> simp [emit, initialState]

theorem processPDFs_colorPages (files : List InputFile) (t : ℚ) (ib : Bool) :
    (processPDFs files t ib).colorPages = (runColorDoc t ib 0 files).countP Page.isSrc := by
  rw [processPDFs, processFiles_eq]
  split <;> simp [emit, initialState]

theorem processPDFs_bwPages (files : List InputFile) (t : ℚ) (ib : Bool) :
    (processPDFs files t ib).bwPages = (runBwDoc t ib 0 files).countP Page.isSrc := by
  rw [processPDFs, processFiles_eq]
  split <;> simp [emit, initialState]

theorem processPDFs_trace (files : List InputFile) (t : ℚ) (ib : Bool) :
    (processPDFs files t ib).trace =
      (Msg.starting :: runTrace files.length 0 files) ++
        [Msg.generating,
         if (runColorDoc t ib 0 files).countP Page.isSrc = 0 ∧
            (runBwDoc t ib 0 files).countP Page.isSrc = 0
         then Msg.errorNoPages else Msg.complete] := by
  rw [processPDFs, processFiles_eq]
  simp only [emit, initialState, Nat.zero_add]
  split
  · next hcond => simp [List.countP_eq_zero.mp hcond.1, List.countP_eq_zero.mp hcond.2,
      List.countP_eq_zero]
  · next hcond =>
      have : ¬((runColorDoc t ib 0 files).countP Page.isSrc = 0 ∧
          (runBwDoc t ib 0 files).countP Page.isSrc = 0) := by simpa using hcond
      simp [this]

/-! ## Classifier lemmas -/

theorem foldl_pixelStep_transparent (t : ℚ) :
    ∀ (ps : List Px) (s : DetectState), (∀ p ∈ ps, p.a < 128) →
      ps.foldl (pixelStep t) s = s := by
  intro ps
  induction ps with
  | nil => intro s _; rfl
  | cons p ps ih =>
      intro s h
      rw [List.foldl_cons]
      have hp : p.a < 128 := h p (List.mem_cons_self p ps)
      rw [pixelStep, if_pos hp]
      exact ih s fun q hq => h q (List.mem_cons_of_mem p hq)

theorem isColorPx_mono (t1 t2 : ℚ) (h : t1 ≤ t2) (p : Px)
    (hc : isColorPx t2 p = true) : isColorPx t1 p = true := by
  unfold isColorPx at hc ⊢
  by_cases h1 : pxLum p < 55
  · rw [if_pos h1] at hc ⊢
    rw [decide_eq_true_iff] at hc ⊢
    rcases hc with hc | hc
    · left; nlinarith
    · right; exact hc
  · by_cases h2 : pxLum p > 200
    · rw [if_neg h1, if_pos h2] at hc ⊢
      rw [decide_eq_true_iff] at hc ⊢
      rcases hc with hc | hc
      · left; nlinarith
      · right; exact hc
    · rw [if_neg h1, if_neg h2] at hc ⊢
      rw [decide_eq_true_iff] at hc ⊢
      rcases hc with hc | hc
      · left; linarith
      · right; exact hc

theorem foldl_pixelStep_mono (t1 t2 : ℚ) (h : t1 ≤ t2) :
    ∀ (ps : List Px) (s1 s2 : DetectState),
      s2.colorPixels ≤ s1.colorPixels →
      s1.sampledPixels = s2.sampledPixels →
      s1.brightPixels = s2.brightPixels →
      s1.darkPixels = s2.darkPixels →
      (ps.foldl (pixelStep t2) s2).colorPixels ≤ (ps.foldl (pixelStep t1) s1).colorPixels ∧
      (ps.foldl (pixelStep t1) s1).sampledPixels = (ps.foldl (pixelStep t2) s2).sampledPixels ∧
      (ps.foldl (pixelStep t1) s1).brightPixels = (ps.foldl (pixelStep t2) s2).brightPixels ∧
      (ps.foldl (pixelStep t1) s1).darkPixels = (ps.foldl (pixelStep t2) s2).darkPixels := by
  intro ps
  induction ps with
  | nil => intro s1 s2 hc hs hb hd; exact ⟨hc, hs, hb, hd⟩
  | cons p ps ih =>
      intro s1 s2 hc hs hb hd
      rw [List.foldl_cons, List.foldl_cons]
      apply ih
      all_goals
        rw [pixelStep, pixelStep]
        by_cases ha : p.a < 128
        · simp only [if_pos ha]; first | exact hc | exact hs | exact hb | exact hd
        · simp only [if_neg ha]
          by_cases hcol1 : isColorPx t1 p = true
          · by_cases hcol2 : isColorPx t2 p = true
            · simp only [hcol1, hcol2, if_true]
              split <;> (try split) <;> (try simp) <;> omega
            · simp only [hcol1, hcol2, if_true, Bool.false_eq_true, if_false]
              split <;> (try split) <;> (try simp) <;> omega
          · have hcol2 : ¬ isColorPx t2 p = true := fun hx => hcol1 (isColorPx_mono t1 t2 h p hx)
            simp only [hcol1, hcol2, Bool.false_eq_true, if_false]
            split <;> (try split) <;> (try simp) <;> omega

theorem uniformBuffer_cons (r g b a n : ℕ) :
    uniformBuffer (n + 1) r g b a = r :: g :: b :: a :: uniformBuffer n r g b a := by
  simp [uniformBuffer, List.replicate_succ]

theorem uniformBuffer_getD (r g b a : ℕ) :
    ∀ (n i : ℕ), i < 4 * n →
      (uniformBuffer n r g b a).getD i 0 = [r, g, b, a].getD (i % 4) 0 := by
  intro n
  induction n with
  | zero => intro i hi; omega
  | succ n ih =>
      intro i hi
      rw [uniformBuffer_cons]
      match i with
      | 0 => rfl
      | 1 => rfl
      | 2 => rfl
      | 3 => rfl
      | (i + 4) =>
          have h4 : (i + 4) % 4 = i % 4 := by omega
          rw [h4]
          show (uniformBuffer n r g b a).getD i 0 = _
          exact ih i (by omega)

theorem uniformBuffer_length (n r g b a : ℕ) :
    (uniformBuffer n r g b a).length = 4 * n := by
  induction n with
  | zero => rfl
  | succ n ih => rw [uniformBuffer_cons]; simp only [List.length_cons, ih]; omega

theorem samples_uniform (n r g b a : ℕ) :
    samples (uniformBuffer n r g b a) =
      List.replicate ((4 * n + 39) / 40) (⟨r, g, b, a⟩ : Px) := by
  rw [samples, uniformBuffer_length]
  rw [List.eq_replicate_iff]
  constructor
  · simp
  · intro q hq
    rw [List.mem_map] at hq
    obtain ⟨k, hk, hq⟩ := hq
    rw [List.mem_range] at hk
    have h0 : 40 * k < 4 * n := by omega
    have h1 : 40 * k + 1 < 4 * n := by omega
    have h2 : 40 * k + 2 < 4 * n := by omega
    have h3 : 40 * k + 3 < 4 * n := by omega
    rw [uniformBuffer_getD r g b a n _ h0, uniformBuffer_getD r g b a n _ h1,
        uniformBuffer_getD r g b a n _ h2, uniformBuffer_getD r g b a n _ h3] at hq
    have m0 : (40 * k) % 4 = 0 := by omega
    have m1 : (40 * k + 1) % 4 = 1 := by omega
    have m2 : (40 * k + 2) % 4 = 2 := by omega
    have m3 : (40 * k + 3) % 4 = 3 := by omega
    rw [m0, m1, m2, m3] at hq
    exact hq.symm

theorem foldl_pixelStep_replicate (t : ℚ) (p : Px) (hop : ¬ p.a < 128)
    (hcol : isColorPx t p = true) :
    ∀ (m : ℕ) (s : DetectState),
      ((List.replicate m p).foldl (pixelStep t) s).colorPixels = s.colorPixels + m ∧
      ((List.replicate m p).foldl (pixelStep t) s).sampledPixels = s.sampledPixels + m := by
  intro m
  induction m with
  | zero => intro s; exact ⟨rfl, rfl⟩
  | succ m ih =>
      intro s
      rw [List.replicate_succ, List.foldl_cons]
      obtain ⟨hc, hs⟩ := ih (pixelStep t s p)
      rw [hc, hs]
      constructor
      · rw [pixelStep, if_neg hop]
        simp only [hcol, if_true]
        split <;> (try split) <;> (try simp) <;> omega
      · rw [pixelStep, if_neg hop]
        simp only [hcol, if_true]
        split <;> (try split) <;> (try simp) <;> omega

theorem detectColor_mono_aux (data : List ℕ) (t1 t2 : ℚ) (h12 : t1 ≤ t2)
    (hbw : detectColor data t1 = false) : detectColor data t2 = false := by
  obtain ⟨hc, hs, hb, hd⟩ :=
    foldl_pixelStep_mono t1 t2 h12 (samples data) ⟨0, 0, 0, 0⟩ ⟨0, 0, 0, 0⟩
      (le_refl 0) rfl rfl rfl
  simp only [detectColor] at hbw ⊢
  by_cases h0 : ((samples data).foldl (pixelStep t1) ⟨0, 0, 0, 0⟩).sampledPixels = 0
  · rw [if_pos (hs ▸ h0)]
  · rw [if_neg h0] at hbw
    rw [if_neg (hs ▸ h0)]
    rw [decide_eq_false_iff_not] at hbw ⊢
    rw [not_lt] at hbw ⊢
    rw [← hs, ← hb, ← hd]
    refine le_trans ?_ hbw
    have hcast : (((samples data).foldl (pixelStep t2) ⟨0, 0, 0, 0⟩).colorPixels : ℚ) ≤
        (((samples data).foldl (pixelStep t1) ⟨0, 0, 0, 0⟩).colorPixels : ℚ) := by
      exact_mod_cast hc
    have hquot : (((samples data).foldl (pixelStep t2) ⟨0, 0, 0, 0⟩).colorPixels : ℚ) /
          (((samples data).foldl (pixelStep t1) ⟨0, 0, 0, 0⟩).sampledPixels : ℚ) ≤
        (((samples data).foldl (pixelStep t1) ⟨0, 0, 0, 0⟩).colorPixels : ℚ) /
          (((samples data).foldl (pixelStep t1) ⟨0, 0, 0, 0⟩).sampledPixels : ℚ) := by
      gcongr
    exact mul_le_mul_of_nonneg_right hquot (by norm_num)

theorem transparent_detectColor (data : List ℕ) (t : ℚ)
    (h : allSampledTransparent data = true) : detectColor data t = false := by
  rw [allSampledTransparent, List.all_eq_true] at h
  simp only [detectColor, foldl_pixelStep_transparent t (samples data) ⟨0, 0, 0, 0⟩
    fun p hp => of_decide_eq_true (h p hp)]
  simp

theorem saturated_isColorPx (t : ℚ) (r g b : ℕ) (hmin : min r (min g b) = 0)
    (hmax : max r (max g b) = 255) (ht2 : t ≤ 100) :
    isColorPx t ⟨r, g, b, 255⟩ = true := by
  have hsat : pxSat ⟨r, g, b, 255⟩ = 1 := by
    rw [pxSat]
    simp only [hmin, hmax]
    norm_num
  have hchroma : pxChroma ⟨r, g, b, 255⟩ = 255 := by
    simp only [pxChroma, hmin, hmax]
    norm_num
  rw [isColorPx, hsat, hchroma]
  by_cases h1 : pxLum ⟨r, g, b, 255⟩ < 55
  · rw [if_pos h1, decide_eq_true_iff]
    left; nlinarith
  · by_cases h2 : pxLum ⟨r, g, b, 255⟩ > 200
    · rw [if_neg h1, if_pos h2, decide_eq_true_iff]
      left; nlinarith
    · rw [if_neg h1, if_neg h2, decide_eq_true_iff]
      right; norm_num

theorem saturated_uniform_detectColor (n r g b : ℕ) (t : ℚ) (hn : 1 ≤ n)
    (hmin : min r (min g b) = 0) (hmax : max r (max g b) = 255) (ht2 : t ≤ 100) :
    detectColor (uniformBuffer n r g b 255) t = true := by
  have hcol : isColorPx t ⟨r, g, b, 255⟩ = true := saturated_isColorPx t r g b hmin hmax ht2
  have hop : ¬ (255 : ℕ) < 128 := by norm_num
  obtain ⟨hc, hs⟩ := foldl_pixelStep_replicate t ⟨r, g, b, 255⟩ hop hcol
    ((4 * n + 39) / 40) ⟨0, 0, 0, 0⟩
  have hm : 1 ≤ (4 * n + 39) / 40 := by omega
  simp only [detectColor, samples_uniform, hc, hs, Nat.zero_add]
  rw [if_neg (show ¬ (4 * n + 39) / 40 = 0 by omega)]
  rw [decide_eq_true_iff]
  have hmq : (((4 * n + 39) / 40 : ℕ) : ℚ) ≠ 0 := by
    have hne : ((4 * n + 39) / 40 : ℕ) ≠ 0 := by omega
    exact_mod_cast hne
  rw [div_self hmq]
  split <;> norm_num

/-! ## Counting lemmas: each source page lands in exactly one place -/

theorem count_colorSrcPages_other (t : ℚ) (fi fj j : ℕ) (hne : fj ≠ fi) :
    ∀ (ps : List PageSpec) (pi : ℕ),
      (colorSrcPages t fi pi ps).count (Page.src fj j) = 0 := by
  intro ps
  induction ps with
  | nil => intro pi; simp [colorSrcPages]
  | cons p ps ih =>
      intro pi
      rw [colorSrcPages, List.count_append, ih]
      split <;> simp [List.count_cons, Ne.symm hne]

theorem count_bwSrcPages_other (t : ℚ) (fi fj j : ℕ) (hne : fj ≠ fi) :
    ∀ (ps : List PageSpec) (pi : ℕ),
      (bwSrcPages t fi pi ps).count (Page.src fj j) = 0 := by
  intro ps
  induction ps with
  | nil => intro pi; simp [bwSrcPages]
  | cons p ps ih =>
      intro pi
      rw [bwSrcPages, List.count_append, ih]
      split <;> simp [List.count_cons, Ne.symm hne]

theorem count_colorSrcPages_lt (t : ℚ) (fi : ℕ) :
    ∀ (ps : List PageSpec) (pi j : ℕ), j < pi →
      (colorSrcPages t fi pi ps).count (Page.src fi j) = 0 := by
  intro ps
  induction ps with
  | nil => intro pi j _; simp [colorSrcPages]
  | cons p ps ih =>
      intro pi j hj
      rw [colorSrcPages, List.count_append, ih (pi + 1) j (by omega)]
      split <;> simp [List.count_cons] <;> omega

theorem count_bwSrcPages_lt (t : ℚ) (fi : ℕ) :
    ∀ (ps : List PageSpec) (pi j : ℕ), j < pi →
      (bwSrcPages t fi pi ps).count (Page.src fi j) = 0 := by
  intro ps
  induction ps with
  | nil => intro pi j _; simp [bwSrcPages]
  | cons p ps ih =>
      intro pi j hj
      rw [bwSrcPages, List.count_append, ih (pi + 1) j (by omega)]
      split <;> simp [List.count_cons] <;> omega

theorem count_colorSrcPages_at (t : ℚ) (fi : ℕ) :
    ∀ (ps : List PageSpec) (k pi : ℕ) (p : PageSpec), ps[k]? = some p →
      (colorSrcPages t fi pi ps).count (Page.src fi (pi + k)) =
        if p.copyOk ∧ pageIsColor t p then 1 else 0 := by
  intro ps
  induction ps with
  | nil => intro k pi p hk; simp at hk
  | cons q ps ih =>
      intro k pi p hk
      match k with
      | 0 =>
          rw [List.getElem?_cons_zero, Option.some_inj] at hk
          subst hk
          rw [colorSrcPages, List.count_append,
              count_colorSrcPages_lt t fi ps (pi + 1) (pi + 0) (by omega)]
          split <;> simp
      | k + 1 =>
          rw [List.getElem?_cons_succ] at hk
          rw [colorSrcPages, List.count_append]
          have harith : pi + (k + 1) = (pi + 1) + k := by omega
          rw [harith, ih k (pi + 1) p hk]
          split <;> simp [List.count_cons] <;> omega

theorem count_bwSrcPages_at (t : ℚ) (fi : ℕ) :
    ∀ (ps : List PageSpec) (k pi : ℕ) (p : PageSpec), ps[k]? = some p →
      (bwSrcPages t fi pi ps).count (Page.src fi (pi + k)) =
        if p.copyOk ∧ ¬(pageIsColor t p = true) then 1 else 0 := by
  intro ps
  induction ps with
  | nil => intro k pi p hk; simp at hk
  | cons q ps ih =>
      intro k pi p hk
      match k with
      | 0 =>
          rw [List.getElem?_cons_zero, Option.some_inj] at hk
          subst hk
          rw [bwSrcPages, List.count_append,
              count_bwSrcPages_lt t fi ps (pi + 1) (pi + 0) (by omega)]
          split <;> simp
      | k + 1 =>
          rw [List.getElem?_cons_succ] at hk
          rw [bwSrcPages, List.count_append]
          have harith : pi + (k + 1) = (pi + 1) + k := by omega
          rw [harith, ih k (pi + 1) p hk]
          split <;> simp [List.count_cons] <;> omega

theorem count_fileColorDoc_other (t : ℚ) (ib : Bool) (fi fj j : ℕ) (hne : fj ≠ fi)
    (f : InputFile) : (fileColorDoc t ib fi f).count (Page.src fj j) = 0 := by
  rw [fileColorDoc]
  match f with
  | ⟨name, FileOutcome.readError⟩ => rfl
  | ⟨name, FileOutcome.loadError⟩ => rfl
  | ⟨name, FileOutcome.renderOpenError⟩ => rfl
  | ⟨name, FileOutcome.ok pages⟩ =>
      rw [List.count_append, count_colorSrcPages_other t fi fj j hne pages 0]
      split <;> simp [List.count_cons]

theorem count_fileBwDoc_other (t : ℚ) (ib : Bool) (fi fj j : ℕ) (hne : fj ≠ fi)
    (f : InputFile) : (fileBwDoc t ib fi f).count (Page.src fj j) = 0 := by
  rw [fileBwDoc]
  match f with
  | ⟨name, FileOutcome.readError⟩ => rfl
  | ⟨name, FileOutcome.loadError⟩ => rfl
  | ⟨name, FileOutcome.renderOpenError⟩ => rfl
  | ⟨name, FileOutcome.ok pages⟩ =>
      rw [List.count_append, count_bwSrcPages_other t fi fj j hne pages 0]
      split <;> simp [List.count_cons]

theorem count_runColorDoc_lt (t : ℚ) (ib : Bool) (fj j : ℕ) :
    ∀ (fs : List InputFile) (fi : ℕ), fj < fi →
      (runColorDoc t ib fi fs).count (Page.src fj j) = 0 := by
  intro fs
  induction fs with
  | nil => intro fi _; simp [runColorDoc]
  | cons f fs ih =>
      intro fi hfi
      rw [runColorDoc, List.count_append,
          count_fileColorDoc_other t ib fi fj j (by omega) f, ih (fi + 1) (by omega)]

theorem count_runBwDoc_lt (t : ℚ) (ib : Bool) (fj j : ℕ) :
    ∀ (fs : List InputFile) (fi : ℕ), fj < fi →
      (runBwDoc t ib fi fs).count (Page.src fj j) = 0 := by
  intro fs
  induction fs with
  | nil => intro fi _; simp [runBwDoc]
  | cons f fs ih =>
      intro fi hfi
      rw [runBwDoc, List.count_append,
          count_fileBwDoc_other t ib fi fj j (by omega) f, ih (fi + 1) (by omega)]

theorem count_runColorDoc_at (t : ℚ) (ib : Bool) :
    ∀ (fs : List InputFile) (k fi j : ℕ) (name : String) (pages : List PageSpec)
      (p : PageSpec), fs[k]? = some ⟨name, FileOutcome.ok pages⟩ → pages[j]? = some p →
      (runColorDoc t ib fi fs).count (Page.src (fi + k) j) =
        if p.copyOk ∧ pageIsColor t p then 1 else 0 := by
  intro fs
  induction fs with
  | nil => intro k fi j name pages p hk _; simp at hk
  | cons f fs ih =>
      intro k fi j name pages p hk hj
      match k with
      | 0 =>
          rw [List.getElem?_cons_zero, Option.some_inj] at hk
          subst hk
          rw [runColorDoc, List.count_append,
              count_runColorDoc_lt t ib (fi + 0) j fs (fi + 1) (by omega)]
          have hmain := count_colorSrcPages_at t fi pages j 0 p hj
          rw [Nat.zero_add] at hmain
          show (fileColorDoc t ib fi ⟨name, FileOutcome.ok pages⟩).count (Page.src fi j) + 0 =
            if p.copyOk ∧ pageIsColor t p then 1 else 0
          simp only [fileColorDoc, List.count_append, hmain]
          split <;> simp [List.count_cons]
      | k + 1 =>
          rw [List.getElem?_cons_succ] at hk
          rw [runColorDoc, List.count_append,
              count_fileColorDoc_other t ib fi (fi + (k + 1)) j (by omega) f]
          have harith : fi + (k + 1) = (fi + 1) + k := by omega
          rw [harith, ih k (fi + 1) j name pages p hk hj]
          omega

theorem count_runBwDoc_at (t : ℚ) (ib : Bool) :
    ∀ (fs : List InputFile) (k fi j : ℕ) (name : String) (pages : List PageSpec)
      (p : PageSpec), fs[k]? = some ⟨name, FileOutcome.ok pages⟩ → pages[j]? = some p →
      (runBwDoc t ib fi fs).count (Page.src (fi + k) j) =
        if p.copyOk ∧ ¬(pageIsColor t p = true) then 1 else 0 := by
  intro fs
  induction fs with
  | nil => intro k fi j name pages p hk _; simp at hk
  | cons f fs ih =>
      intro k fi j name pages p hk hj
      match k with
      | 0 =>
          rw [List.getElem?_cons_zero, Option.some_inj] at hk
          subst hk
          rw [runBwDoc, List.count_append,
              count_runBwDoc_lt t ib (fi + 0) j fs (fi + 1) (by omega)]
          have hmain := count_bwSrcPages_at t fi pages j 0 p hj
          rw [Nat.zero_add] at hmain
          show (fileBwDoc t ib fi ⟨name, FileOutcome.ok pages⟩).count (Page.src fi j) + 0 =
            if p.copyOk ∧ ¬(pageIsColor t p = true) then 1 else 0
          simp only [fileBwDoc, List.count_append, hmain]
          split <;> simp [List.count_cons]
      | k + 1 =>
          rw [List.getElem?_cons_succ] at hk
          rw [runBwDoc, List.count_append,
              count_fileBwDoc_other t ib fi (fi + (k + 1)) j (by omega) f]
          have harith : fi + (k + 1) = (fi + 1) + k := by omega
          rw [harith, ih k (fi + 1) j name pages p hk hj]
          omega

/-! ## Counting lemmas for the surfaced page-copy diagnostics -/

theorem count_pagesTrace_other (name nm : String) (total m : ℕ) (hne : nm ≠ name) :
    ∀ (ps : List PageSpec) (pi : ℕ),
      (pagesTrace name total pi ps).count (Msg.errorCopyingPage m nm) = 0 := by
  intro ps
  induction ps with
  | nil => intro pi; simp [pagesTrace]
  | cons p ps ih =>
      intro pi
      rw [pagesTrace, List.count_cons]
      rw [List.count_append, ih (pi + 1)]
      split <;> simp [List.count_cons, Ne.symm hne]

theorem count_pagesTrace_lt (name : String) (total : ℕ) :
    ∀ (ps : List PageSpec) (pi m : ℕ), m < pi + 1 →
      (pagesTrace name total pi ps).count (Msg.errorCopyingPage m name) = 0 := by
  intro ps
  induction ps with
  | nil => intro pi m _; simp [pagesTrace]
  | cons p ps ih =>
      intro pi m hm
      rw [pagesTrace, List.count_cons]
      rw [List.count_append, ih (pi + 1) m (by omega)]
      split <;> simp [List.count_cons] <;> omega

theorem count_pagesTrace_at (name : String) (total : ℕ) :
    ∀ (ps : List PageSpec) (k pi : ℕ) (p : PageSpec), ps[k]? = some p →
      (pagesTrace name total pi ps).count (Msg.errorCopyingPage (pi + k + 1) name) =
        if p.copyOk then 0 else 1 := by
  intro ps
  induction ps with
  | nil => intro k pi p hk; simp at hk
  | cons q ps ih =>
      intro k pi p hk
      match k with
      | 0 =>
          rw [List.getElem?_cons_zero, Option.some_inj] at hk
          subst hk
          rw [pagesTrace, List.count_cons, List.count_append,
              count_pagesTrace_lt name total ps (pi + 1) (pi + 0 + 1) (by omega)]
          split <;> simp [List.count_cons]
      | k + 1 =>
          rw [List.getElem?_cons_succ] at hk
          rw [pagesTrace, List.count_cons, List.count_append]
          have harith : pi + (k + 1) + 1 = (pi + 1) + k + 1 := by omega
          rw [harith, ih k (pi + 1) p hk]
          split <;> simp [List.count_cons] <;> omega

theorem count_fileTrace_other (nm : String) (total fi m : ℕ) (f : InputFile)
    (hne : nm ≠ f.name) :
    (fileTrace total fi f).count (Msg.errorCopyingPage m nm) = 0 := by
  rw [fileTrace, List.count_cons]
  match f with
  | ⟨name, FileOutcome.readError⟩ => simp [List.count_cons]
  | ⟨name, FileOutcome.loadError⟩ => simp [List.count_cons]
  | ⟨name, FileOutcome.renderOpenError⟩ => simp [List.count_cons]
  | ⟨name, FileOutcome.ok pages⟩ =>
      rw [count_pagesTrace_other name nm pages.length m hne pages 0]
      simp

theorem count_runTrace_other (nm : String) (total m : ℕ) :
    ∀ (fs : List InputFile) (fi : ℕ), nm ∉ fs.map InputFile.name →
      (runTrace total fi fs).count (Msg.errorCopyingPage m nm) = 0 := by
  intro fs
  induction fs with
  | nil => intro fi _; simp [runTrace]
  | cons f fs ih =>
      intro fi hmem
      rw [List.map_cons, List.mem_cons] at hmem
      push_neg at hmem
      rw [runTrace, List.count_append, count_fileTrace_other nm total fi m f hmem.1,
          ih (fi + 1) hmem.2]

theorem count_runTrace_at (total : ℕ) :
    ∀ (fs : List InputFile) (k fi j : ℕ) (name : String) (pages : List PageSpec)
      (p : PageSpec), (fs.map InputFile.name).Nodup →
      fs[k]? = some ⟨name, FileOutcome.ok pages⟩ → pages[j]? = some p →
      (runTrace total fi fs).count (Msg.errorCopyingPage (j + 1) name) =
        if p.copyOk then 0 else 1 := by
  intro fs
  induction fs with
  | nil => intro k fi j name pages p _ hk _; simp at hk
  | cons f fs ih =>
      intro k fi j name pages p hnd hk hj
      rw [List.map_cons, List.nodup_cons] at hnd
      match k with
      | 0 =>
          rw [List.getElem?_cons_zero, Option.some_inj] at hk
          subst hk
          rw [runTrace, List.count_append,
              count_runTrace_other name total (j + 1) fs (fi + 1) hnd.1]
          rw [fileTrace, List.count_cons]
          have hmain := count_pagesTrace_at name pages.length pages j 0 p hj
          rw [Nat.zero_add] at hmain
          rw [hmain]
          split <;> simp
      | k + 1 =>
          rw [List.getElem?_cons_succ] at hk
          have hmem : name ∈ fs.map InputFile.name := by
            have : (⟨name, FileOutcome.ok pages⟩ : InputFile) ∈ fs :=
              List.getElem?_mem hk
            exact List.mem_map_of_mem InputFile.name this
          have hne : name ≠ f.name := fun he => hnd.1 (he ▸ hmem)
          rw [runTrace, List.count_append,
              count_fileTrace_other name total fi (j + 1) f hne,
              ih k (fi + 1) j name pages p hnd.2 hk hj]
          omega

/-! ## The surfaced diagnostics of a run -/

theorem filter_pagesTrace (name : String) (total : ℕ) :
    ∀ (ps : List PageSpec) (pi : ℕ),
      (pagesTrace name total pi ps).filter Msg.isError = pageDiags name pi ps := by
  intro ps
  induction ps with
  | nil => intro pi; rfl
  | cons p ps ih =>
      intro pi
      rw [pagesTrace, pageDiags, List.filter_cons, List.filter_append, ih (pi + 1)]
      have hpp : Msg.isError (Msg.processingPage name (pi + 1) total) = false := rfl
      rw [hpp]
      simp only [Bool.false_eq_true, if_false]
      by_cases hc : p.copyOk
      · simp [hc]
      · simp [hc, List.filter_cons, Msg.isError]

theorem filter_fileTrace (total fi : ℕ) (f : InputFile) :
    (fileTrace total fi f).filter Msg.isError = fileDiags f := by
  match f with
  | ⟨name, FileOutcome.readError⟩ => rfl
  | ⟨name, FileOutcome.loadError⟩ => rfl
  | ⟨name, FileOutcome.renderOpenError⟩ => rfl
  | ⟨name, FileOutcome.ok pages⟩ =>
      rw [fileTrace, fileDiags, List.filter_cons]
      have hpf : Msg.isError (Msg.processingFile name (fi + 1) total) = false := rfl
      rw [hpf]
      simp only [Bool.false_eq_true, if_false]
      exact filter_pagesTrace name pages.length pages 0

theorem filter_runTrace (total : ℕ) :
    ∀ (fs : List InputFile) (fi : ℕ),
      (runTrace total fi fs).filter Msg.isError = runDiags fs := by
  intro fs
  induction fs with
  | nil => intro fi; rfl
  | cons f fs ih =>
      intro fi
      rw [runTrace, List.filter_append, filter_fileTrace, ih (fi + 1)]
      simp [runDiags]

theorem diagnostics_processPDFs (files : List InputFile) (t : ℚ) (ib : Bool) :
    diagnostics (processPDFs files t ib) = runDiags files := by
  rw [diagnostics, processPDFs_trace, List.filter_append, List.filter_cons]
  have h1 : Msg.isError Msg.starting = false := rfl
  rw [h1]
  simp only [Bool.false_eq_true, if_false]
  rw [filter_runTrace]
  suffices hsuf : List.filter Msg.isError [Msg.generating,
      if (runColorDoc t ib 0 files).countP Page.isSrc = 0 ∧
         (runBwDoc t ib 0 files).countP Page.isSrc = 0
      then Msg.errorNoPages else Msg.complete] = [] by
    rw [hsuf, List.append_nil]
  rw [List.filter_cons]
  have h2 : Msg.isError Msg.generating = false := rfl
  rw [h2]
  simp only [Bool.false_eq_true, if_false]
  split <;> rfl

/-! ## Concrete scenario inputs -/

/-- A one-pixel buffer of pure opaque red: classified Color at threshold 50. -/
def redPixel : List ℕ := [255, 0, 0, 255]

/-- A one-pixel buffer of opaque white: classified BlackAndWhite at any
threshold. -/
def whitePixel : List ℕ := [255, 255, 255, 255]

/-- Scenario file A: three pages classified (color, B&W, color). -/
def fileA : InputFile :=
  ⟨"a.pdf", FileOutcome.ok
    [⟨some redPixel, true⟩, ⟨some whitePixel, true⟩, ⟨some redPixel, true⟩]⟩

/-- Scenario file B: one page classified B&W. -/
def fileB : InputFile :=
  ⟨"b.pdf", FileOutcome.ok [⟨some whitePixel, true⟩]⟩

/-! ## The claims -/

/-- C1, counterexample.  In the run over `[bad.pdf (read fails), good.pdf]`
with separators enabled, `good.pdf` is the first successfully-opened file of
the run, yet the code — whose separator condition is `fileIndex > 0` on the
raw input position, not on successful opens — inserts a blank page into both
accumulators before its pages: the B&W output starts with a blank page that
precedes the first page of the whole run, refuting both the "only when that
file is not the first successfully-opened file" condition and the "no blank
page ever appears before the first page of the whole run" consequence. -/
theorem claim1_counterexample :
    (processPDFs [⟨"bad.pdf", FileOutcome.readError⟩,
        ⟨"good.pdf", FileOutcome.ok [⟨some whitePixel, true⟩]⟩] 50 true).bwDoc =
      [Page.blank, Page.src 1 0] ∧
    (processPDFs [⟨"bad.pdf", FileOutcome.readError⟩,
        ⟨"good.pdf", FileOutcome.ok [⟨some whitePixel, true⟩]⟩] 50 true).colorDoc =
      [Page.blank] := by
  decide

/-- C1, amended.  With the insert-separators option enabled, a blank page is
inserted into both accumulators before a successfully-opened file's pages
exactly when the file's position in the input list is greater than zero —
regardless of whether any earlier file actually opened.  (So no blank
precedes the first input file's pages, but a blank can precede the first
page of the whole run when the first input file failed.) -/
theorem claim1_amended (t : ℚ) (ib : Bool) (total fi : ℕ) (name : String)
    (pages : List PageSpec) (s : RunState) :
    (processFile t ib total fi ⟨name, FileOutcome.ok pages⟩ s).colorDoc =
      s.colorDoc ++ (if ib ∧ 0 < fi then [Page.blank] else []) ++
        colorSrcPages t fi 0 pages ∧
    (processFile t ib total fi ⟨name, FileOutcome.ok pages⟩ s).bwDoc =
      s.bwDoc ++ (if ib ∧ 0 < fi then [Page.blank] else []) ++
        bwSrcPages t fi 0 pages := by
  rw [processFile_eq]
  constructor <;> simp [fileColorDoc, fileBwDoc]

/-- C2, counterexample.  In the two-file scenario (file A: color, B&W,
color; file B: B&W; threshold 50; separators enabled) the report counts and
the B&W output order are as claimed, but the color output is not exactly
`[A.p1, A.p3]`: the separator inserted before file B goes into *both*
accumulators, so the color output additionally ends with a blank page. -/
theorem claim2_counterexample :
    detectColor redPixel 50 = true ∧ detectColor whitePixel 50 = false ∧
    (processPDFs [fileA, fileB] 50 true).colorPages = 2 ∧
    (processPDFs [fileA, fileB] 50 true).bwPages = 2 ∧
    (processPDFs [fileA, fileB] 50 true).bwDoc =
      [Page.src 0 1, Page.blank, Page.src 1 0] ∧
    ¬((processPDFs [fileA, fileB] 50 true).colorDoc =
      [Page.src 0 0, Page.src 0 2]) := by
  decide

/-- C2, amended.  Same scenario: counts are {color: 2, bw: 2}, the B&W
output is `[A.p2, blank, B.p1]`, and the color output is
`[A.p1, A.p3, blank]` — the claimed color pages followed by the separator
blank inserted before file B. -/
theorem claim2_amended :
    (processPDFs [fileA, fileB] 50 true).colorPages = 2 ∧
    (processPDFs [fileA, fileB] 50 true).bwPages = 2 ∧
    (processPDFs [fileA, fileB] 50 true).colorDoc =
      [Page.src 0 0, Page.src 0 2, Page.blank] ∧
    (processPDFs [fileA, fileB] 50 true).bwDoc =
      [Page.src 0 1, Page.blank, Page.src 1 0] := by
  decide

/-- C3.  Classification is monotone in the threshold: for a fixed buffer and
thresholds `t1 ≤ t2`, a BlackAndWhite result at `t1` stays BlackAndWhite at
`t2`. -/
theorem claim3_threshold_monotone (data : List ℕ) (t1 t2 : ℚ) (h : t1 ≤ t2)
    (hbw : detectColor data t1 = false) : detectColor data t2 = false :=
  detectColor_mono_aux data t1 t2 h hbw

/-- C3, witness: white is BlackAndWhite at threshold 10, hence also at 80. -/
theorem claim3_threshold_monotone_witness :
    (10 : ℚ) ≤ 80 ∧ detectColor [255, 255, 255, 255] 80 = false :=
  ⟨by norm_num,
   claim3_threshold_monotone [255, 255, 255, 255] 10 80 (by norm_num) (by decide)⟩

/-- C4.  When every sampled pixel is below the transparency cutoff (alpha
< 128) the counted sample population is empty and the classifier returns
BlackAndWhite; being a total function, it cannot fail. -/
theorem claim4_transparent_default (data : List ℕ) (t : ℚ)
    (h : allSampledTransparent data = true) : detectColor data t = false :=
  transparent_detectColor data t h

/-- C4, witness: a fully transparent one-pixel buffer. -/
theorem claim4_transparent_default_witness :
    allSampledTransparent [9, 9, 9, 0] = true ∧ detectColor [9, 9, 9, 0] 50 = false :=
  ⟨by decide, claim4_transparent_default [9, 9, 9, 0] 50 (by decide)⟩

/-- C5.  A nonempty buffer that is uniformly one fully-saturated opaque hue
(some channel 0, some channel 255, alpha 255) is classified Color at every
threshold in [10, 100]. -/
theorem claim5_saturated_color (n r g b : ℕ) (t : ℚ) (hn : 1 ≤ n)
    (hmin : min r (min g b) = 0) (hmax : max r (max g b) = 255)
    (ht1 : 10 ≤ t) (ht2 : t ≤ 100) :
    detectColor (uniformBuffer n r g b 255) t = true :=
  saturated_uniform_detectColor n r g b t hn hmin hmax ht2

/-- C5, witness: three pixels of pure red at the extreme threshold 100. -/
theorem claim5_saturated_color_witness :
    detectColor (uniformBuffer 3 255 0 0 255) 100 = true :=
  claim5_saturated_color 3 255 0 0 100 (by norm_num) (by decide) (by decide)
    (by norm_num) (by norm_num)

/-- C6.  When rasterization of a page fails (`render = none`) but the copy
succeeds, the page loop continues with the remaining pages from a state in
which the page was classified BlackAndWhite: it was appended to the B&W
accumulator, the B&W counter was incremented, the color accumulator and
counter are untouched, and the trace gained only the ordinary progress
message — no error message is surfaced for the page. -/
theorem claim6_render_failure_bw (t : ℚ) (name : String) (total fi pi : ℕ)
    (p : PageSpec) (ps : List PageSpec) (s : RunState)
    (hrender : p.render = none) (hcopy : p.copyOk = true) :
    processPages t name total fi pi (p :: ps) s =
      processPages t name total fi (pi + 1) ps
        { colorPages := s.colorPages, bwPages := s.bwPages + 1,
          colorDoc := s.colorDoc, bwDoc := s.bwDoc ++ [Page.src fi pi],
          trace := s.trace ++ [Msg.processingPage name (pi + 1) total] } := by
  rw [processPages]
  congr 1
  simp [processPage, pageIsColor, hrender, hcopy, emit]

/-- C6, witness: a single page whose rasterization fails. -/
theorem claim6_render_failure_bw_witness :
    processPages 50 "f.pdf" 1 0 0 [⟨none, true⟩] initialState =
      processPages 50 "f.pdf" 1 0 1 []
        { colorPages := 0, bwPages := 1, colorDoc := [],
          bwDoc := [Page.src 0 0],
          trace := [Msg.starting] ++ [Msg.processingPage "f.pdf" 1 1] } :=
  claim6_render_failure_bw 50 "f.pdf" 1 0 0 ⟨none, true⟩ [] initialState rfl rfl

/-- C7.  At-most-once routing, for a run over files with pairwise distinct
names (so that a surfaced copy-error message identifies its page uniquely):
every page `pi` of every successfully-opened file `fi` appears in the final
accumulators and the surfaced page-level diagnostics as follows — if its
copy succeeds it is in the accumulator matching its classification exactly
once, in the other not at all, and no copy-error diagnostic for it exists;
if its copy fails it is in neither accumulator and exactly one copy-error
diagnostic carries its filename and 1-based index.  Moreover each counter
equals the number of source pages in its accumulator, so a routed page is
counted exactly once. -/
theorem claim7_at_most_once (files : List InputFile) (t : ℚ) (ib : Bool)
    (fi pi : ℕ) (name : String) (pages : List PageSpec) (p : PageSpec)
    (hnd : (files.map InputFile.name).Nodup)
    (hf : files[fi]? = some ⟨name, FileOutcome.ok pages⟩)
    (hp : pages[pi]? = some p) :
    ((processPDFs files t ib).colorDoc.count (Page.src fi pi) =
        if p.copyOk ∧ pageIsColor t p then 1 else 0) ∧
    ((processPDFs files t ib).bwDoc.count (Page.src fi pi) =
        if p.copyOk ∧ ¬(pageIsColor t p = true) then 1 else 0) ∧
    ((processPDFs files t ib).trace.count (Msg.errorCopyingPage (pi + 1) name) =
        if p.copyOk then 0 else 1) ∧
    (processPDFs files t ib).colorPages =
      (processPDFs files t ib).colorDoc.countP Page.isSrc ∧
    (processPDFs files t ib).bwPages =
      (processPDFs files t ib).bwDoc.countP Page.isSrc := by
  refine ⟨?_, ?_, ?_, ?_, ?_⟩
  · rw [processPDFs_colorDoc]
    have h := count_runColorDoc_at t ib files fi 0 pi name pages p hf hp
    rw [Nat.zero_add] at h
    exact h
  · rw [processPDFs_bwDoc]
    have h := count_runBwDoc_at t ib files fi 0 pi name pages p hf hp
    rw [Nat.zero_add] at h
    exact h
  · have hrt := count_runTrace_at files.length files fi 0 pi name pages p hnd hf hp
    rw [processPDFs_trace, List.count_append, List.count_cons, hrt]
    have hcz : Msg.errorCopyingPage (pi + 1) name ∉ [Msg.generating,
        if (runColorDoc t ib 0 files).countP Page.isSrc = 0 ∧
           (runBwDoc t ib 0 files).countP Page.isSrc = 0
        then Msg.errorNoPages else Msg.complete] := by
      intro hmem
      simp only [List.mem_cons, List.not_mem_nil, or_false] at hmem
      rcases hmem with h | h
      · exact Msg.noConfusion h
      · revert h
        split <;> intro h <;> exact Msg.noConfusion h
    rw [List.count_eq_zero_of_not_mem hcz]
    simp [beq_iff_eq]
  · rw [processPDFs_colorPages, processPDFs_colorDoc]
  · rw [processPDFs_bwPages, processPDFs_bwDoc]

/-- C7, witness: a one-file, one-page run whose page is classified Color. -/
theorem claim7_at_most_once_witness :
    ((processPDFs [⟨"a.pdf", FileOutcome.ok [⟨some redPixel, true⟩]⟩] 50
        true).colorDoc.count (Page.src 0 0) = 1) ∧
    ((processPDFs [⟨"a.pdf", FileOutcome.ok [⟨some redPixel, true⟩]⟩] 50
        true).bwDoc.count (Page.src 0 0) = 0) ∧
    ((processPDFs [⟨"a.pdf", FileOutcome.ok [⟨some redPixel, true⟩]⟩] 50
        true).trace.count (Msg.errorCopyingPage 1 "a.pdf") = 0) := by
  have h := claim7_at_most_once [⟨"a.pdf", FileOutcome.ok [⟨some redPixel, true⟩]⟩]
    50 true 0 0 "a.pdf" [⟨some redPixel, true⟩] ⟨some redPixel, true⟩
    (by decide) rfl rfl
  refine ⟨?_, ?_, ?_⟩
  · rw [h.1]; decide
  · rw [h.2.1]; decide
  · rw [h.2.2.1]; decide

/-- C8.  A class with zero routed pages yields no output stream (its
accumulator is never serialized or downloaded), and a run that routed zero
pages in total ends with the distinguished no-pages message instead of the
ordinary completion message. -/
theorem claim8_no_pages (files : List InputFile) (t : ℚ) (ib : Bool) :
    ((processPDFs files t ib).colorPages = 0 →
        colorOutput (processPDFs files t ib) = none) ∧
    ((processPDFs files t ib).bwPages = 0 →
        bwOutput (processPDFs files t ib) = none) ∧
    ((processPDFs files t ib).colorPages = 0 ∧ (processPDFs files t ib).bwPages = 0 →
        finalProgress (processPDFs files t ib) = some Msg.errorNoPages) ∧
    (¬((processPDFs files t ib).colorPages = 0 ∧ (processPDFs files t ib).bwPages = 0) →
        finalProgress (processPDFs files t ib) = some Msg.complete) := by
  refine ⟨?_, ?_, ?_, ?_⟩
  · intro h
    rw [colorOutput, if_neg]
    omega
  · intro h
    rw [bwOutput, if_neg]
    omega
  · intro h
    rw [processPDFs_colorPages, processPDFs_bwPages] at h
    rw [finalProgress, processPDFs_trace, if_pos h]
    rw [show (Msg.starting :: runTrace files.length 0 files) ++
        [Msg.generating, Msg.errorNoPages] =
        ((Msg.starting :: runTrace files.length 0 files) ++ [Msg.generating]) ++
          [Msg.errorNoPages] by simp]
    exact List.getLast?_concat _
  · intro h
    rw [processPDFs_colorPages, processPDFs_bwPages] at h
    rw [finalProgress, processPDFs_trace, if_neg h]
    rw [show (Msg.starting :: runTrace files.length 0 files) ++
        [Msg.generating, Msg.complete] =
        ((Msg.starting :: runTrace files.length 0 files) ++ [Msg.generating]) ++
          [Msg.complete] by simp]
    exact List.getLast?_concat _

/-- C8, witness: a run over one unreadable file routes zero pages, emits no
output stream, and ends in the no-pages condition. -/
theorem claim8_no_pages_witness :
    colorOutput (processPDFs [⟨"u.pdf", FileOutcome.readError⟩] 50 false) = none ∧
    bwOutput (processPDFs [⟨"u.pdf", FileOutcome.readError⟩] 50 false) = none ∧
    finalProgress (processPDFs [⟨"u.pdf", FileOutcome.readError⟩] 50 false) =
      some Msg.errorNoPages := by
  have h := claim8_no_pages [⟨"u.pdf", FileOutcome.readError⟩] 50 false
  exact ⟨h.1 (by decide), h.2.1 (by decide), h.2.2.1 ⟨by decide, by decide⟩⟩

/-- C9.  The observable run report — the two counters plus the ordered
stream of surfaced error messages — carries exactly one diagnostic per
failed file (with its filename and error kind) and one per failed page of an
opened file (with its filename and 1-based page index), in run order, as
described by `runDiags`; and a run over a single unreadable file yields
exactly one file-level read-error diagnostic with zero pages counted. -/
theorem claim9_run_report :
    (∀ (files : List InputFile) (t : ℚ) (ib : Bool),
        diagnostics (processPDFs files t ib) = runDiags files) ∧
    diagnostics (processPDFs [⟨"u.pdf", FileOutcome.readError⟩] 50 false) =
      [Msg.errorReadingFile "u.pdf"] ∧
    (processPDFs [⟨"u.pdf", FileOutcome.readError⟩] 50 false).colorPages = 0 ∧
    (processPDFs [⟨"u.pdf", FileOutcome.readError⟩] 50 false).bwPages = 0 := by
  exact ⟨diagnostics_processPDFs, by decide, by decide, by decide⟩

/-- C10.  The final counters count exactly the source pages successfully
copied into the corresponding accumulator: blank separator pages, which are
also present in the accumulators, are excluded from both counts, so
inserting a separator never changes the report counters. -/
theorem claim10_counters_exclude_blanks (files : List InputFile) (t : ℚ) (ib : Bool) :
    (processPDFs files t ib).colorPages =
      (processPDFs files t ib).colorDoc.countP Page.isSrc ∧
    (processPDFs files t ib).bwPages =
      (processPDFs files t ib).bwDoc.countP Page.isSrc := by
  constructor
  · rw [processPDFs_colorPages, processPDFs_colorDoc]
  · rw [processPDFs_bwPages, processPDFs_bwDoc]

end ColorSplit
